import Mathlib

/-!
Verification of the adjacency-matrix parsing core of GEMpp
(`src/library/Model/AdjacencyMatrixParser.cpp`), as a shallow embedding.
`parseData` splits the input into lines, trims them, drops trailing blank
lines and then extracts two graph blocks, each a vertex-count line followed
by that many matrix rows.
-/

namespace GEMpp

/-- Modelled from the spec: the external `Vertex` type (its header `Graph.h`
is not among the repository sources).  A vertex carries a text label and
tracks its incident outgoing and incoming edges; an edge is recorded by its
(origin index, target index) pair. -/
structure Vertex where
  label : String
  outEdges : List (Nat × Nat)
  inEdges : List (Nat × Nat)
  deriving DecidableEq, Repr

/-- Modelled from the spec: the external directed `Graph` type.  It owns an
identifier, the vertex list in creation order (vertices are addressed by
their creation index), and the list of edges it contains, each edge an
(origin index, target index) pair. -/
structure Graph where
  id : String
  vertices : List Vertex
  edges : List (Nat × Nat)
  deriving DecidableEq, Repr

/-- The failures raised by `AdjacencyMatrixParser` through `Exception(...)`.
Modelled from the spec: `Core/Exception.h` is not among the repository
sources; per the spec failure policy every `Exception` is immediately fatal
to the parse call, so each constructor below carries the data interpolated
into the corresponding message, row, column and block numbers already
1-indexed exactly as in the message text. -/
inductive ParseError where
  | malformedInput
  | unexpectedEndOfFile (graphNum : Nat)
  | invalidVertexCount (token : String) (graphNum : Nat)
  | notEnoughLines (graphNum : Nat)
  | rowLengthMismatch (rowNum graphNum actual expected : Nat)
  | invalidMatrixValueToken (token : String) (rowNum colNum graphNum : Nat)
  | matrixValueOutOfRange (value : Int) (rowNum colNum graphNum : Nat)
  deriving DecidableEq, Repr

/-- The whitespace test of `QChar::isSpace`, restricted to the ASCII range. -/
def qIsSpace (c : Char) : Bool :=
  c = ' ' ∨ c = '\t' ∨ c = '\n' ∨ c = '\x0b' ∨ c = '\x0c' ∨ c = '\r'

/-- Strip the characters satisfying `qIsSpace` from both ends of a character
list: the character-level content of `QString::trimmed`. -/
def trimChars (l : List Char) : List Char :=
  ((l.dropWhile qIsSpace).reverse.dropWhile qIsSpace).reverse

/-- `QString::trimmed`. -/
def qTrim (s : String) : String :=
  String.mk (trimChars s.toList)

/-- Split a character list on a separator character, keeping empty parts. -/
def splitChars (sep : Char) : List Char → List (List Char)
  | [] => [[]]
  | c :: cs =>
    match splitChars sep cs with
    | [] => [[]]
    | part :: parts => if c = sep then [] :: part :: parts else (c :: part) :: parts

/-- `QString::split` on a one-character separator with `QString::KeepEmptyParts`. -/
def qSplit (s : String) (sep : Char) : List String :=
  (splitChars sep s.toList).map String.mk

/-- Smallest value of a 32-bit int, the range of `QString::toInt`. -/
def int32Min : Int := -2147483648

/-- Largest value of a 32-bit int, the range of `QString::toInt`. -/
def int32Max : Int := 2147483647

/-- Decimal value of a digit list. -/
def digitsVal (cs : List Char) : Nat :=
  cs.foldl (fun acc c => acc * 10 + (c.toNat - Char.toNat '0')) 0

/-- `QString::toInt` with the default base 10: surrounding whitespace is
ignored, then an optional sign followed by at least one decimal digit, and
the value must fit in a 32-bit int; in every other case `ok` is false,
which this embedding renders as `none`. -/
def qToInt (s : String) : Option Int :=
  let cs := (qTrim s).toList
  let signed : Bool × List Char :=
    match cs with
    | '-' :: rest => (true, rest)
    | '+' :: rest => (false, rest)
    | _ => (false, cs)
  if signed.2.isEmpty then none
  else if signed.2.all Char.isDigit then
    let v : Int := if signed.1 then -(digitsVal signed.2 : Int) else (digitsVal signed.2 : Int)
    if v < int32Min ∨ int32Max < v then none else some v
  else none

/-- `QString::split` with `QString::SkipEmptyParts`: split on the one-character
separator and drop the empty parts. -/
def splitSkipEmptyParts (s : String) (sep : Char) : List String :=
  (qSplit s sep).filter (fun p => p ≠ "")

/-- The loop of `parseData` that removes empty lines from the end of the
line list. -/
def removeTrailingEmpty (l : List String) : List String :=
  (l.reverse.dropWhile (fun x => x = "")).reverse

/-- The line preprocessing of `parseData` applied to the raw parts produced
by splitting on the newline character: `QString::SkipEmptyParts` drops the
empty parts, each part is trimmed, and empty lines are removed from the end. -/
def preprocessRaw (rawParts : List String) : List String :=
  removeTrailingEmpty ((rawParts.filter (fun p => p ≠ "")).map qTrim)

/-- The full line preprocessing of `parseData`, from the input text. -/
def preprocess (data : String) : List String :=
  preprocessRaw (qSplit data '\n')

/-- The default vertex used to read off a position in a vertex list. -/
def blankVertex : Vertex := { label := "", outEdges := [], inEdges := [] }

/-- Functional update of the vertex at index `k`. -/
def updateVertex : List Vertex → Nat → (Vertex → Vertex) → List Vertex
  | [], _, _ => []
  | v :: rest, 0, f => f v :: rest
  | v :: rest, k + 1, f => v :: updateVertex rest k f

/-- Edge creation for a matrix cell equal to 1: a new edge with origin `i`
and target `j` is added to the graph, then registered as outgoing on vertex
`i` and incoming on vertex `j`. -/
def addEdgeToGraph (g : Graph) (i j : Nat) : Graph :=
  let vs1 := updateVertex g.vertices i
    (fun v => { v with outEdges := v.outEdges ++ [(i, j)] })
  let vs2 := updateVertex vs1 j
    (fun v => { v with inEdges := v.inEdges ++ [(i, j)] })
  { g with edges := g.edges ++ [(i, j)], vertices := vs2 }

/-- The inner column loop of `parseSingleGraph`: scan the tokens of matrix
row `i` left to right starting at column index `j`, rejecting a token that
is not an integer and an integer other than 0 and 1, and adding a directed
edge from vertex `i` to vertex `j` for each token equal to 1. -/
def processCells (i graphIndex : Nat) : Graph → List String → Nat → Except ParseError Graph
  | g, [], _ => .ok g
  | g, tok :: rest, j =>
    match qToInt tok with
    | none => .error (.invalidMatrixValueToken tok (i + 1) (j + 1) (graphIndex + 1))
    | some w =>
      if w ≠ 0 then
        if w ≠ 1 then .error (.matrixValueOutOfRange w (i + 1) (j + 1) (graphIndex + 1))
        else processCells i graphIndex (addEdgeToGraph g i j) rest (j + 1)
      else processCells i graphIndex g rest (j + 1)

/-- The tokens of matrix row `i` of the block whose matrix starts at line
`currentLine`: the row line split on spaces, empty parts dropped. -/
def rowTokens (lines : List String) (currentLine i : Nat) : List String :=
  splitSkipEmptyParts (lines.getD (currentLine + i) "") ' '

/-- The outer row loop of `parseSingleGraph` over the remaining row indices:
each row line is split on spaces, its token count is checked against the
vertex count, and then its cells are processed in order. -/
def processRows (lines : List String) (currentLine vertexCount graphIndex : Nat) :
    Graph → List Nat → Except ParseError Graph
  | g, [] => .ok g
  | g, i :: rest =>
    let values := rowTokens lines currentLine i
    if values.length ≠ vertexCount then
      .error (.rowLengthMismatch (i + 1) (graphIndex + 1) values.length vertexCount)
    else
      match processCells i graphIndex g values 0 with
      | .error e => .error e
      | .ok g2 => processRows lines currentLine vertexCount graphIndex g2 rest

/-- The graph freshly constructed by `parseSingleGraph` before the matrix is
read: identifier `graph_<index>`, and `vertexCount` vertices created in
index order, each labeled by its integer index as text. -/
def initialGraph (graphIndex vertexCount : Nat) : Graph :=
  { id := "graph_" ++ toString graphIndex
  , vertices := (List.range vertexCount).map
      (fun i => { label := toString i, outEdges := [], inEdges := [] })
  , edges := [] }

/-- `AdjacencyMatrixParser::parseSingleGraph`: read the vertex count at
`startLine`, check that the matrix rows are present, build the graph with
its vertices, then fill in the edges row by row; on success return the
graph together with the index of the line following the last matrix row. -/
def parseSingleGraph (lines : List String) (startLine graphIndex : Nat) :
    Except ParseError (Graph × Nat) :=
  if lines.length ≤ startLine then
    .error (.unexpectedEndOfFile (graphIndex + 1))
  else
    match qToInt (lines.getD startLine "") with
    | none => .error (.invalidVertexCount (lines.getD startLine "") (graphIndex + 1))
    | some vc =>
      if vc ≤ 0 then
        .error (.invalidVertexCount (lines.getD startLine "") (graphIndex + 1))
      else
        if lines.length < startLine + 1 + vc.toNat then
          .error (.notEnoughLines (graphIndex + 1))
        else
          match processRows lines (startLine + 1) vc.toNat graphIndex
              (initialGraph graphIndex vc.toNat) (List.range vc.toNat) with
          | .error e => .error e
          | .ok g => .ok (g, startLine + 1 + vc.toNat)

/-- The body of `AdjacencyMatrixParser::parseData` after line preprocessing:
require at least two lines, parse the first block at line 0, then parse the
second block starting at the line index returned by the first parse. -/
def parseLines (lines : List String) : Except ParseError (Graph × Graph) :=
  if lines.length < 2 then .error .malformedInput
  else
    match parseSingleGraph lines 0 0 with
    | .error e => .error e
    | .ok (graph1, nextLine) =>
      match parseSingleGraph lines nextLine 1 with
      | .error e => .error e
      | .ok (graph2, _) => .ok (graph1, graph2)

/-- `AdjacencyMatrixParser::parseData`: preprocess the input text into
lines, then extract the two graph blocks. -/
def parseData (data : String) : Except ParseError (Graph × Graph) :=
  parseLines (preprocess data)

/-- A matrix token accepted by the cell scan: an integer equal to 0 or 1. -/
def tokenOk (t : String) : Prop :=
  qToInt t = some 0 ∨ qToInt t = some 1

instance (t : String) : Decidable (tokenOk t) := by
  unfold tokenOk; infer_instance

/-- The (origin, target) pairs contributed by the cells equal to 1 of matrix
row `i`, scanning the given tokens, the first of which sits at column `j`. -/
def rowOnes (i : Nat) : Nat → List String → List (Nat × Nat)
  | _, [] => []
  | j, t :: rest =>
    if qToInt t = some 1 then (i, j) :: rowOnes i (j + 1) rest
    else rowOnes i (j + 1) rest

/-- The edges contributed by a list of matrix row indices. -/
def rowsOnes (lines : List String) (currentLine : Nat) (rows : List Nat) : List (Nat × Nat) :=
  (rows.map (fun i => rowOnes i 0 (rowTokens lines currentLine i))).flatten

/-- Every edge of the graph joins valid vertex indices and is registered as
outgoing on its origin vertex and incoming on its target vertex. -/
def Graph.wellRegistered (g : Graph) : Prop :=
  ∀ p ∈ g.edges, p.1 < g.vertices.length ∧ p.2 < g.vertices.length ∧
    p ∈ (g.vertices.getD p.1 blankVertex).outEdges ∧
    p ∈ (g.vertices.getD p.2 blankVertex).inEdges

/-- The block-level correctness property of a parsed graph: the vertex count
declared on the block's first line is a positive integer `vc`, the graph has
exactly `vc` vertices labeled by their index as text in index order, its
edge set is exactly the set of matrix cells equal to 1, and every edge is
registered as outgoing on its origin vertex and incoming on its target
vertex. -/
def graphMatchesBlock (lines : List String) (startLine : Nat) (g : Graph) : Prop :=
  ∃ vc : Int, qToInt (lines.getD startLine "") = some vc ∧ 0 < vc ∧
    g.vertices.length = vc.toNat ∧
    g.vertices.map Vertex.label = (List.range vc.toNat).map (fun i => toString i) ∧
    (∀ i j : Nat, (i, j) ∈ g.edges ↔
      i < vc.toNat ∧ j < vc.toNat ∧
        qToInt ((rowTokens lines (startLine + 1) i).getD j "") = some 1) ∧
    g.wellRegistered

/-- The error raised for the matrix token at the given 1-indexed position
when the token is rejected: one message when it is not an integer, another
when it is an integer other than 0 and 1. -/
def cellError (t : String) (rowNum colNum graphNum : Nat) : ParseError :=
  match qToInt t with
  | none => .invalidMatrixValueToken t rowNum colNum graphNum
  | some w => .matrixValueOutOfRange w rowNum colNum graphNum

/-- The two error forms of the spec taxonomy entry `InvalidMatrixValue`:
a matrix token that is not an integer, or an integer outside 0 and 1. -/
def ParseError.isInvalidMatrixValue : ParseError → Prop
  | .invalidMatrixValueToken _ _ _ _ => True
  | .matrixValueOutOfRange _ _ _ _ => True
  | _ => False

/-- The outcome of handling one matrix row: the token-count check followed
by the cell scan of that row. -/
def rowResult (lines : List String) (currentLine vertexCount graphIndex : Nat)
    (g : Graph) (i : Nat) : Except ParseError Graph :=
  let values := rowTokens lines currentLine i
  if values.length ≠ vertexCount then
    .error (.rowLengthMismatch (i + 1) (graphIndex + 1) values.length vertexCount)
  else processCells i graphIndex g values 0

/-- The first graph parsed from the input `"2\n1 0\n0 1\n1\n0"`. -/
def exGraph1 : Graph :=
  { id := "graph_0"
  , vertices :=
      [ { label := "0", outEdges := [(0, 0)], inEdges := [(0, 0)] }
      , { label := "1", outEdges := [(1, 1)], inEdges := [(1, 1)] } ]
  , edges := [(0, 0), (1, 1)] }

/-- The second graph parsed from the input `"2\n1 0\n0 1\n1\n0"`. -/
def exGraph2 : Graph :=
  { id := "graph_1"
  , vertices := [ { label := "0", outEdges := [], inEdges := [] } ]
  , edges := [] }

theorem length_updateVertex (vs : List Vertex) (k : Nat) (f : Vertex → Vertex) :
    (updateVertex vs k f).length = vs.length := by
  induction vs generalizing k with
  | nil => rfl
  | cons v rest ih =>
    cases k with
    | zero => rfl
    | succ k => simp [updateVertex, ih]

theorem getD_updateVertex_self (vs : List Vertex) (k : Nat) (f : Vertex → Vertex)
    (d : Vertex) (h : k < vs.length) :
    (updateVertex vs k f).getD k d = f (vs.getD k d) := by
  induction vs generalizing k with
  | nil => simp at h
  | cons v rest ih =>
    cases k with
    | zero => rfl
    | succ k =>
      simp only [updateVertex, List.getD_cons_succ]
      exact ih k (by simpa using h)

theorem getD_updateVertex_ne (vs : List Vertex) (k m : Nat) (f : Vertex → Vertex)
    (d : Vertex) (h : k ≠ m) :
    (updateVertex vs k f).getD m d = vs.getD m d := by
  induction vs generalizing k m with
  | nil => rfl
  | cons v rest ih =>
    cases k with
    | zero =>
      cases m with
      | zero => exact absurd rfl h
      | succ m => rfl
    | succ k =>
      cases m with
      | zero => rfl
      | succ m =>
        simp only [updateVertex, List.getD_cons_succ]
        exact ih k m (by omega)

theorem map_label_updateVertex (vs : List Vertex) (k : Nat) (f : Vertex → Vertex)
    (hf : ∀ v, (f v).label = v.label) :
    (updateVertex vs k f).map Vertex.label = vs.map Vertex.label := by
  induction vs generalizing k with
  | nil => rfl
  | cons v rest ih =>
    cases k with
    | zero => simp [updateVertex, hf]
    | succ k => simp [updateVertex, ih]

theorem addEdgeToGraph_id (g : Graph) (i j : Nat) :
    (addEdgeToGraph g i j).id = g.id := rfl

theorem addEdgeToGraph_edges (g : Graph) (i j : Nat) :
    (addEdgeToGraph g i j).edges = g.edges ++ [(i, j)] := rfl

theorem addEdgeToGraph_length (g : Graph) (i j : Nat) :
    (addEdgeToGraph g i j).vertices.length = g.vertices.length := by
  simp [addEdgeToGraph, length_updateVertex]

theorem addEdgeToGraph_labels (g : Graph) (i j : Nat) :
    (addEdgeToGraph g i j).vertices.map Vertex.label = g.vertices.map Vertex.label := by
  simp only [addEdgeToGraph]
  exact (map_label_updateVertex _ j
      (fun v => { v with inEdges := v.inEdges ++ [(i, j)] }) (fun v => rfl)).trans
    (map_label_updateVertex _ i
      (fun v => { v with outEdges := v.outEdges ++ [(i, j)] }) (fun v => rfl))

theorem mem_rowOnes (i : Nat) (toks : List String) (p : Nat × Nat) (j0 : Nat) :
    p ∈ rowOnes i j0 toks ↔
      ∃ k, k < toks.length ∧ p = (i, j0 + k) ∧ qToInt (toks.getD k "") = some 1 := by
  induction toks generalizing j0 with
  | nil => simp [rowOnes]
  | cons t rest ih =>
    constructor
    · intro hp
      by_cases h1 : qToInt t = some 1
      · simp only [rowOnes, if_pos h1] at hp
        rcases List.mem_cons.mp hp with h | h
        · exact ⟨0, by simp, by simpa using h, by simpa using h1⟩
        · obtain ⟨k, hk, hpk, hv⟩ := (ih (j0 + 1)).mp h
          refine ⟨k + 1, by simp only [List.length_cons]; omega, ?_, by simpa using hv⟩
          rw [hpk]
          congr 1
          omega
      · simp only [rowOnes, if_neg h1] at hp
        obtain ⟨k, hk, hpk, hv⟩ := (ih (j0 + 1)).mp hp
        refine ⟨k + 1, by simp only [List.length_cons]; omega, ?_, by simpa using hv⟩
        rw [hpk]
        congr 1
        omega
    · rintro ⟨k, hk, hpk, hv⟩
      cases k with
      | zero =>
        have h1 : qToInt t = some 1 := by simpa using hv
        simp only [rowOnes, if_pos h1]
        exact List.mem_cons.mpr (Or.inl (by simpa using hpk))
      | succ k =>
        have hmem : p ∈ rowOnes i (j0 + 1) rest := by
          refine (ih (j0 + 1)).mpr ⟨k, by simp only [List.length_cons] at hk; omega, ?_, by simpa using hv⟩
          rw [hpk]
          congr 1
          omega
        by_cases h1 : qToInt t = some 1
        · simp only [rowOnes, if_pos h1]
          exact List.mem_cons.mpr (Or.inr hmem)
        · simpa only [rowOnes, if_neg h1] using hmem

theorem processCells_ok_elim (i gi : Nat) (toks : List String) :
    ∀ j0 g g', processCells i gi g toks j0 = .ok g' →
      (∀ t ∈ toks, tokenOk t) ∧
      g'.edges = g.edges ++ rowOnes i j0 toks ∧
      g'.id = g.id ∧
      g'.vertices.length = g.vertices.length ∧
      g'.vertices.map Vertex.label = g.vertices.map Vertex.label := by
  induction toks with
  | nil =>
    intro j0 g g' h
    simp only [processCells] at h
    cases h
    simp [rowOnes]
  | cons t rest ih =>
    intro j0 g g' h
    cases hq : qToInt t with
    | none => simp [processCells, hq] at h
    | some w =>
      simp only [processCells, hq] at h
      split at h
      · split at h
        · cases h
        · next hw0 hw1 =>
          have hw : w = 1 := not_not.mp hw1
          subst hw
          obtain ⟨htoks, hedge, hid, hlen, hlab⟩ := ih (j0 + 1) (addEdgeToGraph g i j0) g' h
          refine ⟨?_, ?_, ?_, ?_, ?_⟩
          · intro u hu
            rcases List.mem_cons.mp hu with rfl | hu
            · exact Or.inr hq
            · exact htoks u hu
          · rw [hedge, addEdgeToGraph_edges]
            simp [rowOnes, hq]
          · rw [hid, addEdgeToGraph_id]
          · rw [hlen, addEdgeToGraph_length]
          · rw [hlab, addEdgeToGraph_labels]
      · next hw0 =>
        have hw : w = 0 := not_not.mp hw0
        subst hw
        obtain ⟨htoks, hedge, hid, hlen, hlab⟩ := ih (j0 + 1) g g' h
        refine ⟨?_, ?_, hid, hlen, hlab⟩
        · intro u hu
          rcases List.mem_cons.mp hu with rfl | hu
          · exact Or.inl hq
          · exact htoks u hu
        · rw [hedge]
          simp [rowOnes, hq]

theorem addEdgeToGraph_wellRegistered (g : Graph) (i j : Nat)
    (hreg : g.wellRegistered) (hi : i < g.vertices.length) (hj : j < g.vertices.length) :
    (addEdgeToGraph g i j).wellRegistered := by
  set vs := g.vertices with hvs
  set vs1 := updateVertex vs i (fun v => { v with outEdges := v.outEdges ++ [(i, j)] }) with hvs1
  set vs2 := updateVertex vs1 j (fun v => { v with inEdges := v.inEdges ++ [(i, j)] }) with hvs2
  have hlen1 : vs1.length = vs.length := length_updateVertex _ _ _
  have hlen2 : vs2.length = vs.length := by rw [hvs2, length_updateVertex, hlen1]
  have hvert : (addEdgeToGraph g i j).vertices = vs2 := rfl
  have hedges : (addEdgeToGraph g i j).edges = g.edges ++ [(i, j)] := rfl
  have getOut : ∀ k, k < vs.length →
      (vs2.getD k blankVertex).outEdges = (vs.getD k blankVertex).outEdges ∨
      (vs2.getD k blankVertex).outEdges = (vs.getD k blankVertex).outEdges ++ [(i, j)] := by
    intro k hk
    by_cases hkj : j = k
    · subst hkj
      rw [hvs2, getD_updateVertex_self _ _ _ _ (by omega)]
      by_cases hji : i = j
      · subst hji
        rw [hvs1, getD_updateVertex_self _ _ _ _ (by omega)]
        exact Or.inr rfl
      · rw [hvs1, getD_updateVertex_ne _ _ _ _ _ hji]
        exact Or.inl rfl
    · rw [hvs2, getD_updateVertex_ne _ _ _ _ _ hkj]
      by_cases hki : i = k
      · subst hki
        rw [hvs1, getD_updateVertex_self _ _ _ _ (by omega)]
        exact Or.inr rfl
      · rw [hvs1, getD_updateVertex_ne _ _ _ _ _ hki]
        exact Or.inl rfl
  have getIn : ∀ k, k < vs.length →
      (vs2.getD k blankVertex).inEdges = (vs.getD k blankVertex).inEdges ∨
      (vs2.getD k blankVertex).inEdges = (vs.getD k blankVertex).inEdges ++ [(i, j)] := by
    intro k hk
    by_cases hkj : j = k
    · subst hkj
      rw [hvs2, getD_updateVertex_self _ _ _ _ (by omega)]
      by_cases hji : i = j
      · subst hji
        rw [hvs1, getD_updateVertex_self _ _ _ _ (by omega)]
        exact Or.inr rfl
      · rw [hvs1, getD_updateVertex_ne _ _ _ _ _ hji]
        exact Or.inr rfl
    · rw [hvs2, getD_updateVertex_ne _ _ _ _ _ hkj]
      by_cases hki : i = k
      · subst hki
        rw [hvs1, getD_updateVertex_self _ _ _ _ (by omega)]
        exact Or.inl rfl
      · rw [hvs1, getD_updateVertex_ne _ _ _ _ _ hki]
        exact Or.inl rfl
  have outAt : (i, j) ∈ (vs2.getD i blankVertex).outEdges := by
    by_cases hij : j = i
    · subst hij
      rw [hvs2, getD_updateVertex_self _ _ _ _ (by omega), hvs1,
        getD_updateVertex_self _ _ _ _ (by omega)]
      simp
    · rw [hvs2, getD_updateVertex_ne _ _ _ _ _ hij, hvs1,
        getD_updateVertex_self _ _ _ _ (by omega)]
      simp
  have inAt : (i, j) ∈ (vs2.getD j blankVertex).inEdges := by
    rw [hvs2, getD_updateVertex_self _ _ _ _ (by omega)]
    simp
  intro p hp
  rw [hedges] at hp
  rw [hvert, hlen2]
  rcases List.mem_append.mp hp with hold | hnew
  · obtain ⟨hp1, hp2, hout, hin⟩ := hreg p hold
    refine ⟨hp1, hp2, ?_, ?_⟩
    · rcases getOut p.1 hp1 with h | h
      · rw [h]; exact hout
      · rw [h]; exact List.mem_append_left _ hout
    · rcases getIn p.2 hp2 with h | h
      · rw [h]; exact hin
      · rw [h]; exact List.mem_append_left _ hin
  · have hpv : p = (i, j) := by simpa using hnew
    subst hpv
    exact ⟨hi, hj, outAt, inAt⟩

theorem processCells_wellRegistered (i gi : Nat) (toks : List String) :
    ∀ j0 g g', processCells i gi g toks j0 = .ok g' →
      g.wellRegistered → i < g.vertices.length → j0 + toks.length ≤ g.vertices.length →
      g'.wellRegistered := by
  induction toks with
  | nil =>
    intro j0 g g' h hreg hi hb
    simp only [processCells] at h
    cases h
    exact hreg
  | cons t rest ih =>
    intro j0 g g' h hreg hi hb
    cases hq : qToInt t with
    | none => simp [processCells, hq] at h
    | some w =>
      simp only [processCells, hq] at h
      split at h
      · split at h
        · cases h
        · have hj0 : j0 < g.vertices.length := by simp only [List.length_cons] at hb; omega
          refine ih (j0 + 1) (addEdgeToGraph g i j0) g' h
            (addEdgeToGraph_wellRegistered g i j0 hreg hi hj0) ?_ ?_
          · rw [addEdgeToGraph_length]; exact hi
          · rw [addEdgeToGraph_length]; simp only [List.length_cons] at hb; omega
      · refine ih (j0 + 1) g g' h hreg hi (by simp only [List.length_cons] at hb; omega)

theorem rowsOnes_cons (lines : List String) (cl i : Nat) (rest : List Nat) :
    rowsOnes lines cl (i :: rest) =
      rowOnes i 0 (rowTokens lines cl i) ++ rowsOnes lines cl rest := by
  simp [rowsOnes]

theorem processRows_ok_elim (lines : List String) (cl N gi : Nat) :
    ∀ rows g g', processRows lines cl N gi g rows = .ok g' →
      (∀ i ∈ rows, (rowTokens lines cl i).length = N ∧
        ∀ t ∈ rowTokens lines cl i, tokenOk t) ∧
      g'.edges = g.edges ++ rowsOnes lines cl rows ∧
      g'.id = g.id ∧
      g'.vertices.length = g.vertices.length ∧
      g'.vertices.map Vertex.label = g.vertices.map Vertex.label := by
  intro rows
  induction rows with
  | nil =>
    intro g g' h
    simp only [processRows] at h
    cases h
    simp [rowsOnes]
  | cons i rest ih =>
    intro g g' h
    simp only [processRows] at h
    split at h
    · cases h
    · next hlen =>
      split at h
      · cases h
      · next g2 hc =>
        have hrow : (rowTokens lines cl i).length = N := not_not.mp hlen
        obtain ⟨hrows, hedges, hid, hlen2, hlab2⟩ := ih g2 g' h
        obtain ⟨htoks, hedge1, hid1, hlen1, hlab1⟩ :=
          processCells_ok_elim i gi (rowTokens lines cl i) 0 g g2 hc
        refine ⟨?_, ?_, by rw [hid, hid1], by rw [hlen2, hlen1], by rw [hlab2, hlab1]⟩
        · intro k hk
          rcases List.mem_cons.mp hk with rfl | hk
          · exact ⟨hrow, htoks⟩
          · exact hrows k hk
        · rw [hedges, hedge1, rowsOnes_cons, List.append_assoc]

theorem processRows_wellRegistered (lines : List String) (cl N gi : Nat) :
    ∀ rows g g', processRows lines cl N gi g rows = .ok g' →
      g.wellRegistered → (∀ i ∈ rows, i < g.vertices.length) → N ≤ g.vertices.length →
      g'.wellRegistered := by
  intro rows
  induction rows with
  | nil =>
    intro g g' h hreg _ _
    simp only [processRows] at h
    cases h
    exact hreg
  | cons i rest ih =>
    intro g g' h hreg hrows hN
    simp only [processRows] at h
    split at h
    · cases h
    · next hlen =>
      split at h
      · cases h
      · next g2 hc =>
        have hrow : (rowTokens lines cl i).length = N := not_not.mp hlen
        have hreg2 : g2.wellRegistered := by
          refine processCells_wellRegistered i gi (rowTokens lines cl i) 0 g g2 hc hreg
            (hrows i (List.mem_cons_self i rest)) ?_
          omega
        have hlen2 : g2.vertices.length = g.vertices.length :=
          (processCells_ok_elim i gi (rowTokens lines cl i) 0 g g2 hc).2.2.2.1
        refine ih g2 g' h hreg2 ?_ (by omega)
        intro k hk
        rw [hlen2]
        exact hrows k (List.mem_cons_of_mem i hk)

theorem mem_rowsOnes_range (lines : List String) (cl N a b : Nat) :
    (a, b) ∈ rowsOnes lines cl (List.range N) ↔
      a < N ∧ b < (rowTokens lines cl a).length ∧
        qToInt ((rowTokens lines cl a).getD b "") = some 1 := by
  simp only [rowsOnes, List.mem_flatten, List.mem_map]
  constructor
  · rintro ⟨L, ⟨i, hi, rfl⟩, hab⟩
    obtain ⟨k, hk, hpk, hv⟩ := (mem_rowOnes i _ (a, b) 0).mp hab
    have ha : a = i ∧ b = k := by simpa [Prod.ext_iff] using hpk
    obtain ⟨rfl, rfl⟩ := ha
    exact ⟨List.mem_range.mp hi, hk, hv⟩
  · rintro ⟨ha, hb, hv⟩
    refine ⟨rowOnes a 0 (rowTokens lines cl a), ⟨a, List.mem_range.mpr ha, rfl⟩, ?_⟩
    exact (mem_rowOnes a _ (a, b) 0).mpr ⟨b, hb, by simp, hv⟩

theorem initialGraph_length (gi N : Nat) :
    (initialGraph gi N).vertices.length = N := by
  simp [initialGraph]

theorem initialGraph_labels (gi N : Nat) :
    (initialGraph gi N).vertices.map Vertex.label = (List.range N).map (fun i => toString i) := by
  simp [initialGraph]

theorem initialGraph_wellRegistered (gi N : Nat) :
    (initialGraph gi N).wellRegistered := by
  intro p hp
  simp [initialGraph] at hp

theorem parseSingleGraph_ok_elim (lines : List String) (s gi : Nat) (g : Graph) (next : Nat)
    (h : parseSingleGraph lines s gi = .ok (g, next)) :
    ∃ vc : Int, qToInt (lines.getD s "") = some vc ∧ 0 < vc ∧
      s < lines.length ∧ s + 1 + vc.toNat ≤ lines.length ∧
      processRows lines (s + 1) vc.toNat gi (initialGraph gi vc.toNat)
        (List.range vc.toNat) = .ok g ∧
      next = s + 1 + vc.toNat := by
  simp only [parseSingleGraph] at h
  split at h
  · cases h
  · next hs =>
    split at h
    · cases h
    · next vc hq =>
      split at h
      · cases h
      · next hvc =>
        split at h
        · cases h
        · next hlen =>
          split at h
          · cases h
          · next g2 hp =>
            simp only [Except.ok.injEq, Prod.mk.injEq] at h
            obtain ⟨rfl, rfl⟩ := h
            exact ⟨vc, hq, by omega, by omega, by omega, hp, rfl⟩

theorem parseSingleGraph_ok_matches (lines : List String) (s gi : Nat) (g : Graph) (next : Nat)
    (h : parseSingleGraph lines s gi = .ok (g, next)) :
    graphMatchesBlock lines s g := by
  obtain ⟨vc, hq, hvc, hs, hlen, hp, rfl⟩ := parseSingleGraph_ok_elim lines s gi g next h
  obtain ⟨hrows, hedges, hid, hlength, hlab⟩ :=
    processRows_ok_elim lines (s + 1) vc.toNat gi (List.range vc.toNat) _ g hp
  refine ⟨vc, hq, hvc, ?_, ?_, ?_, ?_⟩
  · rw [hlength, initialGraph_length]
  · rw [hlab, initialGraph_labels]
  · intro i j
    rw [hedges]
    simp only [initialGraph, List.nil_append]
    rw [mem_rowsOnes_range]
    constructor
    · rintro ⟨hi, hj, hv⟩
      exact ⟨hi, by rw [(hrows i (List.mem_range.mpr hi)).1] at hj; exact hj, hv⟩
    · rintro ⟨hi, hj, hv⟩
      exact ⟨hi, by rw [(hrows i (List.mem_range.mpr hi)).1]; exact hj, hv⟩
  · refine processRows_wellRegistered lines (s + 1) vc.toNat gi (List.range vc.toNat) _ g hp
      (initialGraph_wellRegistered gi vc.toNat) ?_ (by rw [initialGraph_length])
    intro i hi
    rw [initialGraph_length]
    exact List.mem_range.mp hi

theorem parseLines_ok_elim (lines : List String) (g1 g2 : Graph)
    (h : parseLines lines = .ok (g1, g2)) :
    2 ≤ lines.length ∧ ∃ n1 n2, parseSingleGraph lines 0 0 = .ok (g1, n1) ∧
      parseSingleGraph lines n1 1 = .ok (g2, n2) := by
  simp only [parseLines] at h
  split at h
  · cases h
  · next hlen =>
    split at h
    · cases h
    · next ga n1 h1 =>
      split at h
      · cases h
      · next gb n2 h2 =>
        simp only [Except.ok.injEq, Prod.mk.injEq] at h
        obtain ⟨rfl, rfl⟩ := h
        exact ⟨by omega, n1, n2, h1, h2⟩

theorem parseLines_eq_chain (lines : List String) (g1 : Graph) (n1 : Nat)
    (hlen : 2 ≤ lines.length) (h1 : parseSingleGraph lines 0 0 = .ok (g1, n1)) :
    parseLines lines = (parseSingleGraph lines n1 1).map (fun pr => (g1, pr.1)) := by
  simp only [parseLines, h1]
  rw [if_neg (by omega)]
  cases h2 : parseSingleGraph lines n1 1 with
  | error e => simp [Except.map]
  | ok pr => cases pr; simp [Except.map]

theorem rowTokens_append (lines extra : List String) (cl i : Nat)
    (h : cl + i < lines.length) :
    rowTokens (lines ++ extra) cl i = rowTokens lines cl i := by
  simp only [rowTokens]
  rw [List.getD_append _ _ _ _ h]

theorem processRows_append (lines extra : List String) (cl N gi : Nat) :
    ∀ rows g, (∀ i ∈ rows, cl + i < lines.length) →
      processRows (lines ++ extra) cl N gi g rows = processRows lines cl N gi g rows := by
  intro rows
  induction rows with
  | nil => intro g _; rfl
  | cons i rest ih =>
    intro g hb
    have hi : cl + i < lines.length := hb i (List.mem_cons_self i rest)
    simp only [processRows, rowTokens_append lines extra cl i hi]
    split
    · rfl
    · cases hc : processCells i gi g (rowTokens lines cl i) 0 with
      | error e => rfl
      | ok g2 => exact ih g2 (fun k hk => hb k (List.mem_cons_of_mem i hk))

theorem parseSingleGraph_append (lines extra : List String) (s gi : Nat) (g : Graph) (next : Nat)
    (h : parseSingleGraph lines s gi = .ok (g, next)) :
    parseSingleGraph (lines ++ extra) s gi = .ok (g, next) := by
  obtain ⟨vc, hq, hvc, hs, hlen, hp, rfl⟩ := parseSingleGraph_ok_elim lines s gi g next h
  have hget : (lines ++ extra).getD s "" = lines.getD s "" :=
    List.getD_append _ _ _ _ hs
  have hc1 : ¬((lines ++ extra).length ≤ s) := by
    rw [List.length_append]; omega
  have hc2 : ¬(vc ≤ 0) := by omega
  have hc3 : ¬((lines ++ extra).length < s + 1 + vc.toNat) := by
    rw [List.length_append]; omega
  have hpr : processRows (lines ++ extra) (s + 1) vc.toNat gi (initialGraph gi vc.toNat)
      (List.range vc.toNat) = .ok g := by
    rw [processRows_append lines extra (s + 1) vc.toNat gi (List.range vc.toNat) _ ?_]
    · exact hp
    · intro i hi
      have := List.mem_range.mp hi
      omega
  simp only [parseSingleGraph, hget, hq, if_neg hc1, if_neg hc2, if_neg hc3, hpr]

theorem processCells_error_first (i gi : Nat) (toks : List String) :
    ∀ j0 g k, k < toks.length → (∀ m, m < k → tokenOk (toks.getD m "")) →
      ¬ tokenOk (toks.getD k "") →
      processCells i gi g toks j0 =
        .error (cellError (toks.getD k "") (i + 1) (j0 + k + 1) (gi + 1)) := by
  induction toks with
  | nil => intro j0 g k hk _ _; simp at hk
  | cons t rest ih =>
    intro j0 g k hk hprev hbad
    cases k with
    | zero =>
      simp only [List.getD_cons_zero] at hbad ⊢
      cases hq : qToInt t with
      | none => simp [processCells, cellError, hq]
      | some w =>
        have hw0 : w ≠ 0 := by
          intro hw; exact hbad (Or.inl (by rw [hq, hw]))
        have hw1 : w ≠ 1 := by
          intro hw; exact hbad (Or.inr (by rw [hq, hw]))
        simp only [processCells, cellError, hq, if_pos hw0, if_pos hw1]
    | succ k =>
      have ht : tokenOk t := by
        have := hprev 0 (by omega)
        simpa using this
      have hprev2 : ∀ m, m < k → tokenOk (rest.getD m "") := by
        intro m hm
        have := hprev (m + 1) (by omega)
        simpa using this
      have hbad2 : ¬ tokenOk (rest.getD k "") := by simpa using hbad
      have hk2 : k < rest.length := by simpa using hk
      have harith : j0 + (k + 1) + 1 = (j0 + 1) + k + 1 := by omega
      rcases ht with hq | hq
      · simp only [processCells, hq, List.getD_cons_succ, harith]
        rw [if_neg (by simp)]
        exact ih (j0 + 1) g k hk2 hprev2 hbad2
      · simp only [processCells, hq, List.getD_cons_succ, harith]
        rw [if_pos (by simp), if_neg (by simp)]
        exact ih (j0 + 1) (addEdgeToGraph g i j0) k hk2 hprev2 hbad2

theorem cellError_isInvalidMatrixValue (t : String) (r c g : Nat) :
    (cellError t r c g).isInvalidMatrixValue := by
  unfold cellError
  cases qToInt t <;> trivial

/-- C1: for every valid input, `parseData` returns two graphs; each graph
has exactly the vertex count declared by its block, its vertices labeled by
their integer index as text in index order, its edge set is exactly the set
of matrix cells equal to 1, and every edge is registered as outgoing on its
origin vertex and incoming on its target vertex. -/
theorem claim_parse_graphs_match (data : String) (g1 g2 : Graph)
    (h : parseData data = .ok (g1, g2)) :
    graphMatchesBlock (preprocess data) 0 g1 ∧
    ∃ n1, parseSingleGraph (preprocess data) 0 0 = .ok (g1, n1) ∧
      graphMatchesBlock (preprocess data) n1 g2 := by
  have h' : parseLines (preprocess data) = .ok (g1, g2) := h
  obtain ⟨hlen, n1, n2, h1, h2⟩ := parseLines_ok_elim _ _ _ h'
  exact ⟨parseSingleGraph_ok_matches _ _ _ _ _ h1, n1, h1,
    parseSingleGraph_ok_matches _ _ _ _ _ h2⟩

/-- Witness for C1 at the input `"2\n1 0\n0 1\n1\n0"`. -/
theorem claim_parse_graphs_match_witness :
    graphMatchesBlock (preprocess "2\n1 0\n0 1\n1\n0") 0 exGraph1 ∧
    ∃ n1, parseSingleGraph (preprocess "2\n1 0\n0 1\n1\n0") 0 0 = .ok (exGraph1, n1) ∧
      graphMatchesBlock (preprocess "2\n1 0\n0 1\n1\n0") n1 exGraph2 :=
  claim_parse_graphs_match "2\n1 0\n0 1\n1\n0" exGraph1 exGraph2 (by rfl)

/-- C2 counterexample: an input with an interior blank (fully empty) line
parses identically to the same input with that line removed, because the
split is performed with `QString::SkipEmptyParts`; the blank line does not
remain in the line stream. -/
theorem claim_interior_blank_cex :
    parseData "2\n\n1 0\n0 1\n1\n0" = parseData "2\n1 0\n0 1\n1\n0" ∧
    preprocess "2\n\n1 0\n0 1\n1\n0" = preprocess "2\n1 0\n0 1\n1\n0" ∧
    preprocess "2\n\n1 0\n0 1\n1\n0" = ["2", "1 0", "0 1", "1", "0"] :=
  ⟨rfl, rfl, rfl⟩

/-- C2 amended: interior lines that are fully empty are dropped when the
input is split (`SkipEmptyParts`), so they never reach the line stream;
an interior line made only of whitespace survives the split, is trimmed to
an empty ordinary line that is not skipped, and changes the parse, while
the same input without that line parses successfully. -/
theorem claim_interior_blank_amended :
    (∀ a b : List String, preprocessRaw (a ++ "" :: b) = preprocessRaw (a ++ b)) ∧
    preprocess "2\n \n1 0\n0 1\n1\n0" = ["2", "", "1 0", "0 1", "1", "0"] ∧
    parseData "2\n \n1 0\n0 1\n1\n0" = .error (.rowLengthMismatch 1 1 0 2) ∧
    parseData "2\n1 0\n0 1\n1\n0" = .ok (exGraph1, exGraph2) := by
  refine ⟨?_, rfl, rfl, rfl⟩
  intro a b
  simp [preprocessRaw, List.filter_append]

/-- C3: a successfully parsed block whose declared vertex count is `vc`
returns the next-line index `startLine + 1 + vc`, and `parseLines` parses
the second block starting exactly at the index returned by the first. -/
theorem claim_cursor_chaining :
    (∀ lines s gi g next, parseSingleGraph lines s gi = .ok (g, next) →
      ∃ vc : Int, qToInt (lines.getD s "") = some vc ∧ 0 < vc ∧
        next = s + 1 + vc.toNat) ∧
    (∀ lines g1 n1, 2 ≤ lines.length →
      parseSingleGraph lines 0 0 = .ok (g1, n1) →
      parseLines lines = (parseSingleGraph lines n1 1).map (fun pr => (g1, pr.1))) := by
  constructor
  · intro lines s gi g next h
    obtain ⟨vc, hq, hvc, _, _, _, rfl⟩ := parseSingleGraph_ok_elim lines s gi g next h
    exact ⟨vc, hq, hvc, rfl⟩
  · intro lines g1 n1 hlen h1
    exact parseLines_eq_chain lines g1 n1 hlen h1

/-- Witness for C3 at the line stream of `"2\n1 0\n0 1\n1\n0"`. -/
theorem claim_cursor_chaining_witness :
    (∃ vc : Int, qToInt ((["2", "1 0", "0 1", "1", "0"] : List String).getD 0 "") = some vc ∧
      0 < vc ∧ 3 = 0 + 1 + vc.toNat) ∧
    parseLines ["2", "1 0", "0 1", "1", "0"] =
      (parseSingleGraph ["2", "1 0", "0 1", "1", "0"] 3 1).map (fun pr => (exGraph1, pr.1)) :=
  ⟨claim_cursor_chaining.1 ["2", "1 0", "0 1", "1", "0"] 0 0 exGraph1 3 (by rfl),
   claim_cursor_chaining.2 ["2", "1 0", "0 1", "1", "0"] exGraph1 3 (by decide) (by rfl)⟩

/-- C4: when the cell scan reaches a matrix token that is not an integer or
is an integer outside 0 and 1 (all earlier tokens of the row being
acceptable), the row processing fails with the error that names the
offending token and its 1-indexed row, column and block, and that error
belongs to the `InvalidMatrixValue` family; in particular the input
`"2\n1 2\n0 1\n"` fails naming value 2 at position (1,2) of block 1. -/
theorem claim_invalid_matrix_value :
    (∀ i gi g toks j0 k, k < toks.length →
      (∀ m, m < k → tokenOk (toks.getD m "")) → ¬ tokenOk (toks.getD k "") →
      processCells i gi g toks j0 =
        .error (cellError (toks.getD k "") (i + 1) (j0 + k + 1) (gi + 1)) ∧
      (cellError (toks.getD k "") (i + 1) (j0 + k + 1) (gi + 1)).isInvalidMatrixValue) ∧
    parseData "2\n1 2\n0 1\n" = .error (.matrixValueOutOfRange 2 1 2 1) := by
  refine ⟨?_, rfl⟩
  intro i gi g toks j0 k hk hprev hbad
  exact ⟨processCells_error_first i gi toks j0 g k hk hprev hbad,
    cellError_isInvalidMatrixValue _ _ _ _⟩

/-- Witness for C4 at row tokens `["1", "2"]`. -/
theorem claim_invalid_matrix_value_witness :
    (processCells 0 0 (initialGraph 0 2) ["1", "2"] 0 =
        .error (cellError "2" 1 2 1) ∧
      (cellError "2" 1 2 1).isInvalidMatrixValue) ∧
    parseData "2\n1 2\n0 1\n" = .error (.matrixValueOutOfRange 2 1 2 1) := by
  refine ⟨?_, claim_invalid_matrix_value.2⟩
  exact claim_invalid_matrix_value.1 0 0 (initialGraph 0 2) ["1", "2"] 0 1
    (by decide)
    (by
      intro m hm
      have hm0 : m = 0 := by omega
      subst hm0
      decide)
    (by decide)

/-- C5: a matrix row whose token count differs from the declared vertex
count makes the row loop fail with `RowLengthMismatch` carrying the
1-indexed row number, the 1-indexed block number, and the actual and
expected counts; in particular `"2\n1 0\n0\n"` fails naming row 2 of
block 1 with 1 token against 2 expected. -/
theorem claim_row_length_mismatch :
    (∀ lines cl N gi g i rest, (rowTokens lines cl i).length ≠ N →
      processRows lines cl N gi g (i :: rest) =
        .error (.rowLengthMismatch (i + 1) (gi + 1) (rowTokens lines cl i).length N)) ∧
    parseData "2\n1 0\n0\n" = .error (.rowLengthMismatch 2 1 1 2) := by
  refine ⟨?_, rfl⟩
  intro lines cl N gi g i rest h
  simp only [processRows]
  rw [if_pos h]

/-- Witness for C5 at the line stream of `"2\n1 0\n0\n"`. -/
theorem claim_row_length_mismatch_witness :
    processRows ["2", "1 0", "0"] 1 2 0 (initialGraph 0 2) [1] =
      .error (.rowLengthMismatch 2 1 1 2) ∧
    parseData "2\n1 0\n0\n" = .error (.rowLengthMismatch 2 1 1 2) := by
  refine ⟨?_, claim_row_length_mismatch.2⟩
  exact claim_row_length_mismatch.1 ["2", "1 0", "0"] 1 2 0 (initialGraph 0 2) 1 []
    (by decide)

/-- C6: every parse either fails with a single error and no graph, or
succeeds with the pair of graphs; in particular when the second block fails
after the first block succeeded, the whole parse surfaces only that single
error and the already-built first graph is not returned. -/
theorem claim_failures_fatal :
    (∀ data, (∃ e, parseData data = .error e) ∨ ∃ p, parseData data = .ok p) ∧
    (∀ lines g1 n1 e, 2 ≤ lines.length →
      parseSingleGraph lines 0 0 = .ok (g1, n1) →
      parseSingleGraph lines n1 1 = .error e →
      parseLines lines = .error e) := by
  constructor
  · intro data
    cases h : parseData data with
    | error e => exact Or.inl ⟨e, rfl⟩
    | ok p => exact Or.inr ⟨p, rfl⟩
  · intro lines g1 n1 e hlen h1 h2
    simp only [parseLines, h1, h2]
    rw [if_neg (by omega)]

/-- Witness for C6: the first block of `["2", "1 0", "0 1", "1"]` parses
but the second lacks its matrix row, and only that error is surfaced. -/
theorem claim_failures_fatal_witness :
    ((∃ e, parseData "" = .error e) ∨ ∃ p, parseData "" = .ok p) ∧
    parseLines ["2", "1 0", "0 1", "1"] = .error (.notEnoughLines 2) := by
  refine ⟨claim_failures_fatal.1 "", ?_⟩
  exact claim_failures_fatal.2 ["2", "1 0", "0 1", "1"] exGraph1 3 (.notEnoughLines 2)
    (by decide) (by rfl) (by rfl)

/-- C7 counterexample: the input `"0\n"` fails with the two-line
requirement (`MalformedInput`), which is a different error from the claimed
`InvalidVertexCount` naming token "0" in block 1. -/
theorem claim_vertex_count_cex :
    parseData "0\n" = .error .malformedInput ∧
    ParseError.malformedInput ≠ ParseError.invalidVertexCount "0" 1 :=
  ⟨rfl, by decide⟩

/-- C7 amended: for every block whose start line is present, a start line
that is not a valid integer or parses to an integer at most 0 makes the
block parse fail with `InvalidVertexCount` naming the token and the
1-indexed block; the input `"0\n0\n"` fails that way, while a bare `"0\n"`
fails earlier with `MalformedInput` because fewer than two lines remain. -/
theorem claim_vertex_count_amended :
    (∀ lines s gi, s < lines.length →
      (qToInt (lines.getD s "") = none ∨
        ∃ v, qToInt (lines.getD s "") = some v ∧ v ≤ 0) →
      parseSingleGraph lines s gi =
        .error (.invalidVertexCount (lines.getD s "") (gi + 1))) ∧
    parseData "0\n0\n" = .error (.invalidVertexCount "0" 1) ∧
    parseData "0\n" = .error .malformedInput := by
  refine ⟨?_, rfl, rfl⟩
  intro lines s gi hs hbad
  rcases hbad with hq | ⟨v, hq, hv⟩
  · simp only [parseSingleGraph, hq]
    rw [if_neg (by omega)]
  · simp only [parseSingleGraph, hq]
    rw [if_neg (by omega), if_pos hv]

/-- Witness for C7 amended at the line stream of `"0\n0\n"`. -/
theorem claim_vertex_count_amended_witness :
    parseSingleGraph ["0", "0"] 0 0 = .error (.invalidVertexCount "0" 1) ∧
    parseData "0\n0\n" = .error (.invalidVertexCount "0" 1) := by
  refine ⟨?_, claim_vertex_count_amended.2.1⟩
  exact claim_vertex_count_amended.1 ["0", "0"] 0 0 (by decide)
    (Or.inr ⟨0, by decide, by decide⟩)

/-- C8: an input whose preprocessed line stream keeps fewer than two lines
fails with `MalformedInput`; in particular the single-line input `"5"`. -/
theorem claim_malformed_input :
    (∀ data, (preprocess data).length < 2 → parseData data = .error .malformedInput) ∧
    parseData "5" = .error .malformedInput := by
  refine ⟨?_, rfl⟩
  intro data h
  show parseLines (preprocess data) = .error .malformedInput
  simp only [parseLines]
  rw [if_pos h]

/-- Witness for C8 at the single-line input `"5"`. -/
theorem claim_malformed_input_witness :
    (preprocess "5").length < 2 ∧ parseData "5" = .error .malformedInput :=
  ⟨by decide, claim_malformed_input.1 "5" (by decide)⟩

/-- C9: lines after the second block are ignored: extending a successfully
parsed line stream with any extra lines leaves the parsed pair unchanged,
and trailing content after the second block of a raw input (including blank
lines) does not change the parse. -/
theorem claim_trailing_ignored :
    (∀ lines extra : List String, ∀ g1 g2 : Graph,
      parseLines lines = .ok (g1, g2) → parseLines (lines ++ extra) = .ok (g1, g2)) ∧
    parseData "2\n1 0\n0 1\n1\n0\n\nrest of file\n" = parseData "2\n1 0\n0 1\n1\n0" := by
  refine ⟨?_, rfl⟩
  intro lines extra g1 g2 h
  obtain ⟨hlen, n1, n2, h1, h2⟩ := parseLines_ok_elim lines g1 g2 h
  have h1' := parseSingleGraph_append lines extra 0 0 g1 n1 h1
  have h2' := parseSingleGraph_append lines extra n1 1 g2 n2 h2
  simp only [parseLines, h1', h2']
  rw [if_neg (by rw [List.length_append]; omega)]

/-- Witness for C9 at the line stream of `"2\n1 0\n0 1\n1\n0"`. -/
theorem claim_trailing_ignored_witness :
    parseLines (["2", "1 0", "0 1", "1", "0"] ++ ["trailing data"]) = .ok (exGraph1, exGraph2) ∧
    parseData "2\n1 0\n0 1\n1\n0\n\nrest of file\n" = parseData "2\n1 0\n0 1\n1\n0" :=
  ⟨claim_trailing_ignored.1 ["2", "1 0", "0 1", "1", "0"] ["trailing data"] exGraph1 exGraph2
      (by rfl),
   claim_trailing_ignored.2⟩

/-- C10: the first violation in scan order determines the error: an error
in block 1 is the error of the whole parse (block 2 is never consulted), a
row whose own handling fails determines the error of the row loop no matter
what later rows hold, a bad cell at the head of the remaining tokens
determines the error of the cell scan no matter what later tokens hold, and
an input with many violations reports exactly the first one in this order. -/
theorem claim_scan_order :
    (∀ lines e, 2 ≤ lines.length → parseSingleGraph lines 0 0 = .error e →
      parseLines lines = .error e) ∧
    (∀ lines cl N gi g i rest e, rowResult lines cl N gi g i = .error e →
      processRows lines cl N gi g (i :: rest) = .error e) ∧
    (∀ i gi g tok rest j, ¬ tokenOk tok →
      processCells i gi g (tok :: rest) j =
        .error (cellError tok (i + 1) (j + 1) (gi + 1))) ∧
    parseData "2\n2 9\nq\nabc\n-1" = .error (.matrixValueOutOfRange 2 1 1 1) := by
  refine ⟨?_, ?_, ?_, rfl⟩
  · intro lines e hlen h
    simp only [parseLines, h]
    rw [if_neg (by omega)]
  · intro lines cl N gi g i rest e h
    simp only [rowResult] at h
    simp only [processRows]
    split at h
    · next hc =>
      rw [if_pos hc]
      exact h
    · next hc =>
      rw [if_neg hc, h]
  · intro i gi g tok rest j hbad
    have h := processCells_error_first i gi (tok :: rest) j g 0 (by simp)
      (by
        intro m hm
        exact absurd hm (Nat.not_lt_zero m))
      (by simpa using hbad)
    simpa using h

/-- Witness for C10 at inputs with violations in several positions. -/
theorem claim_scan_order_witness :
    parseLines ["0", "x"] = .error (.invalidVertexCount "0" 1) ∧
    processRows ["1", "0 0"] 1 1 0 (initialGraph 0 1) [0] =
      .error (.rowLengthMismatch 1 1 2 1) ∧
    processCells 0 0 (initialGraph 0 2) ["7", "q"] 0 = .error (cellError "7" 1 1 1) ∧
    parseData "2\n2 9\nq\nabc\n-1" = .error (.matrixValueOutOfRange 2 1 1 1) := by
  refine ⟨?_, ?_, ?_, claim_scan_order.2.2.2⟩
  · exact claim_scan_order.1 ["0", "x"] (.invalidVertexCount "0" 1) (by decide) (by rfl)
  · exact claim_scan_order.2.1 ["1", "0 0"] 1 1 0 (initialGraph 0 1) 0 []
      (.rowLengthMismatch 1 1 2 1) (by rfl)
  · exact claim_scan_order.2.2.1 0 0 (initialGraph 0 2) "7" ["q"] 0 (by decide)

end GEMpp
